import Mathlib

/-!
Verification of the LangDAG Python SDK core against its specification.

The development shallowly embeds the SDK's pure core:
* a model of `json.loads` on the JSON subset exchanged by this API
  (objects, arrays, strings, integers, booleans, null);
* the SSE stream decoder `_parse_sse_stream` of `langdag/client.py` and its
  async twin `_parse_sse_stream_async` of `langdag/async_client.py`;
* the error classifier `_handle_response`, the request executors `_request`
  and `_stream_request` of both client variants, and the exception
  hierarchy of `langdag/exceptions.py`;
* the tree reconstruction of `print_tree_structure` in
  `examples/python/example.py`.
-/

namespace LangDAG

/-! ## JSON values and a model of `json.loads` -/

/-- JSON values as produced by `json.loads`: Python dicts become ordered
key/value lists, lists become arrays.  Numbers are restricted to integers,
which covers every payload this API exchanges. -/
inductive Json where
  | null : Json
  | bool (b : Bool) : Json
  | num (n : Int) : Json
  | str (s : String) : Json
  | arr (xs : List Json) : Json
  | obj (kvs : List (String × Json)) : Json
  deriving Repr

/-- Lookup of a key in an object's key/value list, mirroring `dict.get`. -/
def jLookup (k : String) : List (String × Json) → Option Json
  | [] => none
  | (k', v) :: kvs => if k' = k then some v else jLookup k kvs

/-- Python `dict.get key` on a JSON value: `none` when the key is missing. -/
def Json.get (j : Json) (k : String) : Option Json :=
  match j with
  | .obj kvs => jLookup k kvs
  | _ => none

/-- JSON insignificant whitespace. -/
def isJsonWs (c : Char) : Bool :=
  c = ' ' || c = '\t' || c = '\n' || c = '\r'

/-- Decimal digit test. -/
def isDigitB (c : Char) : Bool :=
  '0' ≤ c && c ≤ '9'

/-- Numeric value of a list of decimal digits. -/
def digitsToNat (ds : List Char) : Nat :=
  ds.foldl (fun acc c => acc * 10 + (c.toNat - '0'.toNat)) 0

/-- Translation of a JSON string escape character. -/
def escChar (c : Char) : Option Char :=
  if c = '"' then some '"'
  else if c = '\\' then some '\\'
  else if c = '/' then some '/'
  else if c = 'n' then some '\n'
  else if c = 't' then some '\t'
  else if c = 'r' then some '\r'
  else if c = 'b' then some '\x08'
  else if c = 'f' then some '\x0c'
  else none

/-- Body of a JSON string after the opening quote: returns the decoded
characters and the input remaining after the closing quote. -/
def parseStringBody : List Char → Option (List Char × List Char)
  | [] => none
  | '"' :: rest => some ([], rest)
  | '\\' :: e :: rest => do
      let c ← escChar e
      let (s, r) ← parseStringBody rest
      some (c :: s, r)
  | '\\' :: [] => none
  | c :: rest => do
      let (s, r) ← parseStringBody rest
      some (c :: s, r)

/-- Parse of a JSON integer (optional minus sign, at least one digit). -/
def parseIntNum (cs : List Char) : Option (Json × List Char) :=
  match cs with
  | '-' :: rest =>
      let ds := rest.takeWhile isDigitB
      if ds.isEmpty then none
      else some (.num (-(digitsToNat ds : Int)), rest.drop ds.length)
  | _ =>
      let ds := cs.takeWhile isDigitB
      if ds.isEmpty then none
      else some (.num (digitsToNat ds : Int), cs.drop ds.length)

mutual

/-- One JSON value at the front of the input, with fuel bounding nesting. -/
def parseJsonValue : Nat → List Char → Option (Json × List Char)
  | 0, _ => none
  | fuel + 1, cs =>
    match (cs.dropWhile isJsonWs : List Char) with
    | '\x7b' :: rest =>
        match (rest.dropWhile isJsonWs : List Char) with
        | '\x7d' :: rest' => some (.obj [], rest')
        | _ => do
            let (ms, r) ← parseJsonMembers fuel rest
            some (.obj ms, r)
    | '[' :: rest =>
        match (rest.dropWhile isJsonWs : List Char) with
        | ']' :: rest' => some (.arr [], rest')
        | _ => do
            let (xs, r) ← parseJsonElems fuel rest
            some (.arr xs, r)
    | '"' :: rest => do
        let (s, r) ← parseStringBody rest
        some (.str ⟨s⟩, r)
    | 't' :: 'r' :: 'u' :: 'e' :: rest => some (.bool true, rest)
    | 'f' :: 'a' :: 'l' :: 's' :: 'e' :: rest => some (.bool false, rest)
    | 'n' :: 'u' :: 'l' :: 'l' :: rest => some (.null, rest)
    | cs' => parseIntNum cs'

/-- Members of a JSON object after the opening brace (at least one). -/
def parseJsonMembers : Nat → List Char → Option (List (String × Json) × List Char)
  | 0, _ => none
  | fuel + 1, cs =>
    match (cs.dropWhile isJsonWs : List Char) with
    | '"' :: rest => do
        let (k, r1) ← parseStringBody rest
        match (r1.dropWhile isJsonWs : List Char) with
        | ':' :: r2 => do
            let (v, r3) ← parseJsonValue fuel r2
            match (r3.dropWhile isJsonWs : List Char) with
            | ',' :: r4 => do
                let (ms, r5) ← parseJsonMembers fuel r4
                some ((⟨k⟩, v) :: ms, r5)
            | '\x7d' :: r4 => some ([(⟨k⟩, v)], r4)
            | _ => none
        | _ => none
    | _ => none

/-- Elements of a JSON array after the opening bracket (at least one). -/
def parseJsonElems : Nat → List Char → Option (List Json × List Char)
  | 0, _ => none
  | fuel + 1, cs => do
      let (v, r1) ← parseJsonValue fuel cs
      match (r1.dropWhile isJsonWs : List Char) with
      | ',' :: r2 => do
          let (xs, r3) ← parseJsonElems fuel r2
          some (v :: xs, r3)
      | ']' :: r2 => some ([v], r2)
      | _ => none

end

/-- Model of Python's `json.loads` on the JSON subset exchanged by this
API: succeeds exactly when the whole string is a single JSON value
surrounded by optional whitespace, and fails (Python raises
`json.JSONDecodeError`) otherwise. -/
def jsonLoads (s : String) : Option Json :=
  match parseJsonValue (s.length + 1) s.data with
  | some (v, rest) => if (rest.dropWhile isJsonWs).isEmpty then some v else none
  | none => none

/-! ## Python string primitives used by the SSE decoder -/

/-- Python `str.rstrip` with the two-character set CR/LF, as in
`line.rstrip` applied to a carriage-return/line-feed set. -/
def rstripCRLF (s : String) : String :=
  ⟨((s.data.reverse.dropWhile (fun c => c = '\r' || c = '\n')).reverse : List Char)⟩

/-- Python whitespace characters recognised by `str.strip`. -/
def isPyWs (c : Char) : Bool :=
  c = ' ' || c = '\t' || c = '\n' || c = '\r' || c = '\x0b' || c = '\x0c'

/-- Python `str.strip`: whitespace removed from both ends. -/
def pyStrip (s : String) : String :=
  ⟨(((s.data.dropWhile isPyWs).reverse.dropWhile isPyWs).reverse : List Char)⟩

/-- Python slicing `s[n:]`. -/
def strDrop (s : String) (n : Nat) : String :=
  ⟨(s.data.drop n : List Char)⟩

/-- Python `str.startswith`. -/
def startsWithB (s pre : String) : Bool :=
  pre.data.isPrefixOf s.data

/-! ## SSE events and the stream decoder -/

/-- Event kinds of `SSEEventType` in `langdag/models.py`: the enum values
start, delta, done and error. -/
inductive SSEEventType where
  | start : SSEEventType
  | delta : SSEEventType
  | done : SSEEventType
  | error : SSEEventType
  deriving Repr, DecidableEq

/-- Conversion of a raw event-type string to the enum, mirroring the
`SSEEventType(event_type)` call: `none` models the `ValueError` branch. -/
def SSEEventType.fromString (s : String) : Option SSEEventType :=
  if s = "start" then some .start
  else if s = "delta" then some .delta
  else if s = "done" then some .done
  else if s = "error" then some .error
  else none

/-- A decoded Server-Sent Event, as the `SSEEvent` dataclass of
`langdag/models.py`: an event kind and an untyped payload. -/
structure SSEEvent where
  event : SSEEventType
  data : Json
  deriving Repr

/-- Accessor `SSEEvent.dag_id`: the payload's dag-id entry, if any. -/
def SSEEvent.dag_id (e : SSEEvent) : Option Json :=
  e.data.get "dag_id"

/-- Accessor `SSEEvent.node_id`: the payload's node-id entry, if any. -/
def SSEEvent.node_id (e : SSEEvent) : Option Json :=
  e.data.get "node_id"

/-- Accessor `SSEEvent.content`: the payload's content entry, if any. -/
def SSEEvent.content (e : SSEEvent) : Option Json :=
  e.data.get "content"

/-- Loop of `_parse_sse_stream` in `langdag/client.py`, with the two state
variables `event_type` and `data_lines` as explicit arguments and the JSON
parser `jl` (the `json.loads` capability) passed in.  Every step mirrors
one iteration of the Python `for` loop over the remaining lines. -/
def parse_sse_stream_from (jl : String → Option Json) :
    List String → Option String → List String → List SSEEvent
  | [], _, _ => []
  | rawLine :: rest, event_type, data_lines =>
    let line := rstripCRLF rawLine
    if startsWithB line "event:" then
      parse_sse_stream_from jl rest (some (pyStrip (strDrop line 6))) data_lines
    else if startsWithB line "data:" then
      parse_sse_stream_from jl rest event_type (data_lines ++ [pyStrip (strDrop line 5)])
    else if line = "" then
      match event_type, data_lines with
      | some et, d :: ds =>
        let data_str := String.intercalate "\n" (d :: ds)
        let data :=
          match jl data_str with
          | some j => j
          | none => Json.obj [("message", Json.str data_str)]
        match SSEEventType.fromString et with
        | some t => SSEEvent.mk t data :: parse_sse_stream_from jl rest none []
        | none => parse_sse_stream_from jl rest none []
      | _, _ => parse_sse_stream_from jl rest none []
    else
      parse_sse_stream_from jl rest event_type data_lines

/-- Synchronous SSE decoder `_parse_sse_stream` of `langdag/client.py`,
run to completion on a finite line sequence. -/
def parse_sse_stream (jl : String → Option Json) (lines : List String) : List SSEEvent :=
  parse_sse_stream_from jl lines none []

/-- Loop of `_parse_sse_stream_async` in `langdag/async_client.py`,
embedded exactly like its synchronous twin: the async iteration over lines
becomes iteration over the same finite list. -/
def parse_sse_stream_async_from (jl : String → Option Json) :
    List String → Option String → List String → List SSEEvent
  | [], _, _ => []
  | rawLine :: rest, event_type, data_lines =>
    let line := rstripCRLF rawLine
    if startsWithB line "event:" then
      parse_sse_stream_async_from jl rest (some (pyStrip (strDrop line 6))) data_lines
    else if startsWithB line "data:" then
      parse_sse_stream_async_from jl rest event_type (data_lines ++ [pyStrip (strDrop line 5)])
    else if line = "" then
      match event_type, data_lines with
      | some et, d :: ds =>
        let data_str := String.intercalate "\n" (d :: ds)
        let data :=
          match jl data_str with
          | some j => j
          | none => Json.obj [("message", Json.str data_str)]
        match SSEEventType.fromString et with
        | some t => SSEEvent.mk t data :: parse_sse_stream_async_from jl rest none []
        | none => parse_sse_stream_async_from jl rest none []
      | _, _ => parse_sse_stream_async_from jl rest none []
    else
      parse_sse_stream_async_from jl rest event_type data_lines

/-- Asynchronous SSE decoder `_parse_sse_stream_async` of
`langdag/async_client.py` on a finite line sequence. -/
def parse_sse_stream_async (jl : String → Option Json) (lines : List String) : List SSEEvent :=
  parse_sse_stream_async_from jl lines none []

/-! ## Exception hierarchy of `langdag/exceptions.py` -/

/-- Exception classes declared in `langdag/exceptions.py`. -/
inductive ExcClass where
  | langDAGError : ExcClass
  | apiError : ExcClass
  | authenticationError : ExcClass
  | notFoundError : ExcClass
  | badRequestError : ExcClass
  | connectionError : ExcClass
  | streamError : ExcClass
  deriving Repr, DecidableEq

/-- Ancestor classes (the class itself first), following the `class`
declarations: `APIError(LangDAGError)`, the three status-specific errors
deriving from `APIError`, and `ConnectionError(LangDAGError)` and
`StreamError(LangDAGError)` deriving directly from the base. -/
def ExcClass.ancestors : ExcClass → List ExcClass
  | .langDAGError => [.langDAGError]
  | .apiError => [.apiError, .langDAGError]
  | .authenticationError => [.authenticationError, .apiError, .langDAGError]
  | .notFoundError => [.notFoundError, .apiError, .langDAGError]
  | .badRequestError => [.badRequestError, .apiError, .langDAGError]
  | .connectionError => [.connectionError, .langDAGError]
  | .streamError => [.streamError, .langDAGError]

/-- Python `issubclass`: derived from the ancestor chains. -/
def ExcClass.isSubclassOf (c d : ExcClass) : Bool :=
  d ∈ c.ancestors

/-- Concrete subclasses of `APIError` raisable by `_handle_response`. -/
inductive APIErrorKind where
  | base : APIErrorKind
  | authentication : APIErrorKind
  | notFound : APIErrorKind
  | badRequest : APIErrorKind
  deriving Repr, DecidableEq

/-- Exception class of an `APIError` family member. -/
def APIErrorKind.toClass : APIErrorKind → ExcClass
  | .base => .apiError
  | .authentication => .authenticationError
  | .notFound => .notFoundError
  | .badRequest => .badRequestError

/-- Fields set by `APIError.__init__`: the message (a JSON value, since
`body.get` can return any JSON value), the optional status code, and the
optional response body. -/
structure APIErrorData where
  message : Json
  status_code : Option Nat
  response_body : Option Json
  deriving Repr

/-- An exception raised by the embedded client paths: a member of the
`APIError` family, a `ConnectionError` wrapping its cause (the `from e`
clause), or the `json.JSONDecodeError` escaping `response.json()` on a
success status. -/
inductive PyError where
  | apiError (kind : APIErrorKind) (d : APIErrorData) : PyError
  | connectionError (message : String) (cause : String) : PyError
  | jsonDecodeError : PyError
  deriving Repr

/-- Exception class of a raised error. -/
def PyError.cls : PyError → Option ExcClass
  | .apiError k _ => some k.toClass
  | .connectionError _ _ => some .connectionError
  | .jsonDecodeError => none

/-! ## Request executors of `client.py` and `async_client.py` -/

/-- An HTTP response as consumed by the embedded code: status code and raw
body text.  `response.json()` is `jsonLoads` of the body. -/
structure HttpResponse where
  status_code : Nat
  body : String
  deriving Repr

/-- Message extraction `body.get ("error", default)` guarded by
`except Exception`: the default string is used when the body fails to
parse, parses to a non-dict (whose `.get` raises), or parses to a dict
without an error key. -/
def extractMessage (parsed : Option Json) (dflt : String) : Json :=
  match parsed with
  | some (Json.obj kvs) => (jLookup "error" kvs).getD (Json.str dflt)
  | _ => Json.str dflt

/-- Classifier `_handle_response` of `langdag/client.py`: maps the status
code to a typed error (401, 404, 400, then any other status of at least
400), extracting the message with a fixed per-code default, and returns
the parsed body for success statuses.  `Except.error` models `raise`. -/
def handle_response (resp : HttpResponse) : Except PyError Json :=
  let parsed := jsonLoads resp.body
  if resp.status_code = 401 then
    .error (.apiError .authentication
      ⟨extractMessage parsed "Authentication failed", some resp.status_code, none⟩)
  else if resp.status_code = 404 then
    .error (.apiError .notFound
      ⟨extractMessage parsed "Resource not found", some resp.status_code, none⟩)
  else if resp.status_code = 400 then
    .error (.apiError .badRequest
      ⟨extractMessage parsed "Bad request", some resp.status_code, none⟩)
  else if 400 ≤ resp.status_code then
    .error (.apiError .base
      ⟨extractMessage parsed ("API error: " ++ toString resp.status_code),
       some resp.status_code, none⟩)
  else
    match parsed with
    | some j => .ok j
    | none => .error .jsonDecodeError

/-- Classifier `_handle_response` of `langdag/async_client.py`, embedded
separately from its (textually identical) synchronous twin. -/
def handle_response_async (resp : HttpResponse) : Except PyError Json :=
  let parsed := jsonLoads resp.body
  if resp.status_code = 401 then
    .error (.apiError .authentication
      ⟨extractMessage parsed "Authentication failed", some resp.status_code, none⟩)
  else if resp.status_code = 404 then
    .error (.apiError .notFound
      ⟨extractMessage parsed "Resource not found", some resp.status_code, none⟩)
  else if resp.status_code = 400 then
    .error (.apiError .badRequest
      ⟨extractMessage parsed "Bad request", some resp.status_code, none⟩)
  else if 400 ≤ resp.status_code then
    .error (.apiError .base
      ⟨extractMessage parsed ("API error: " ++ toString resp.status_code),
       some resp.status_code, none⟩)
  else
    match parsed with
    | some j => .ok j
    | none => .error .jsonDecodeError

/-- Outcome of the transport layer for one request: either the connection
attempt fails with an `httpx.ConnectError` carrying a message, or a
response arrives. -/
inductive TransportResult where
  | connectError (e : String) : TransportResult
  | response (r : HttpResponse) : TransportResult
  deriving Repr

/-- The `ConnectionError` value built in the `except httpx.ConnectError`
handlers, with `from e` preserving the cause. -/
def wrapConnectError (base_url e : String) : PyError :=
  .connectionError ("Failed to connect to " ++ base_url ++ ": " ++ e) e

/-- Buffered executor `_request` of `langdag/client.py`: wraps connection
failures into `ConnectionError` and otherwise defers to
`_handle_response`. -/
def request_exec (base_url : String) (t : TransportResult) : Except PyError Json :=
  match t with
  | .connectError e => .error (wrapConnectError base_url e)
  | .response r => handle_response r

/-- Buffered executor `_request` of `langdag/async_client.py`. -/
def request_exec_async (base_url : String) (t : TransportResult) : Except PyError Json :=
  match t with
  | .connectError e => .error (wrapConnectError base_url e)
  | .response r => handle_response_async r

/-- Lines of a streamed body as produced by `iter_lines`: split at
line-feed characters (the decoder itself re-strips any CR). -/
def iterLines (body : String) : List String :=
  body.splitOn "\n"

/-- Streaming executor `_stream_request` of `langdag/client.py`: on a
connection failure raises `ConnectionError`; on a status of at least 400
reads the body and defers to `_handle_response` (falling through to the
decoder only if that call were not to raise); otherwise decodes the
response's line sequence. -/
def stream_request (base_url : String) (t : TransportResult) :
    Except PyError (List SSEEvent) :=
  match t with
  | .connectError e => .error (wrapConnectError base_url e)
  | .response r =>
    if 400 ≤ r.status_code then
      match handle_response r with
      | .error err => .error err
      | .ok _ => .ok (parse_sse_stream jsonLoads (iterLines r.body))
    else
      .ok (parse_sse_stream jsonLoads (iterLines r.body))

/-- Streaming executor `_stream_request` of `langdag/async_client.py`. -/
def stream_request_async (base_url : String) (t : TransportResult) :
    Except PyError (List SSEEvent) :=
  match t with
  | .connectError e => .error (wrapConnectError base_url e)
  | .response r =>
    if 400 ≤ r.status_code then
      match handle_response_async r with
      | .error err => .error err
      | .ok _ => .ok (parse_sse_stream_async jsonLoads (iterLines r.body))
    else
      .ok (parse_sse_stream_async jsonLoads (iterLines r.body))

/-! ## Tree reconstruction of `print_tree_structure` in `example.py`

The reconstruction reads only the `id` and `parent_id` attributes of each
node (the remaining attributes feed the display string only), so the
embedded node type carries exactly those. -/

/-- A node of the flat list handed to `print_tree_structure`, restricted
to the attributes the reconstruction reads. -/
structure TreeNode where
  id : String
  parent_id : Option String
  deriving Repr, DecidableEq

/-- One step of the children-map construction: the Python statements
`children.setdefault`-style insertion (`if parent not in children: … = []`
followed by `children[parent].append(node.id)`) on an insertion-ordered
dictionary represented as an association list. -/
def addChild (m : List (Option String × List String)) (p : Option String)
    (c : String) : List (Option String × List String) :=
  match m with
  | [] => [(p, [c])]
  | (k, cs) :: rest =>
      if k = p then (k, cs ++ [c]) :: rest else (k, cs) :: addChild rest p c

/-- The `children` dictionary built by the `for node in tree` loop:
parent-id-or-null mapped to the child ids in input order. -/
def buildChildren (tree : List TreeNode) : List (Option String × List String) :=
  tree.foldl (fun m nd => addChild m nd.parent_id nd.id) []

/-- Dictionary access `children.get (key, [])`. -/
def childrenGet (m : List (Option String × List String)) (p : Option String) :
    List String :=
  match m with
  | [] => []
  | (k, cs) :: rest => if k = p then cs else childrenGet rest p

/-- Visit sequence of the recursive `print_node`: the ids printed when
starting at `i`, visiting the node and then each recorded child in order.
The Python recursion carries no bound and diverges on cyclic adjacency;
the embedding bounds it by `fuel`, and the executors below pass a fuel
that is never exhausted on the forests the claims quantify over. -/
def print_node_visits (cm : List (Option String × List String)) :
    Nat → String → List String
  | 0, _ => []
  | fuel + 1, i =>
      i :: (childrenGet cm (some i)).flatMap (print_node_visits cm fuel)

/-- Visit sequence of the whole `print_tree_structure` display loop:
`print_node` run on every id under the null key of the children map, in
order. -/
def tree_traversal (tree : List TreeNode) : List String :=
  (childrenGet (buildChildren tree) none).flatMap
    (print_node_visits (buildChildren tree) tree.length)

/-! ## Notions used to state the traversal properties -/

/-- Index of the first occurrence of `y` in a list (the list's length when
`y` is absent). -/
def firstIdx (y : String) : List String → Nat
  | [] => 0
  | a :: l => if a = y then 0 else firstIdx y l + 1

/-- Strict precedence: every occurrence of `y` in `L` has an occurrence of
`q` strictly before it. -/
def Pre (q y : String) (L : List String) : Prop :=
  ∀ A B, L = A ++ y :: B → q ∈ A

/-- Chains of the child relation recorded in a children map: a path from
`a` to `b` through successive child-list memberships, carrying the list of
visited ids. -/
inductive ChildPath (cm : List (Option String × List String)) :
    String → String → List String → Prop where
  | refl (a : String) : ChildPath cm a a [a]
  | step {a b c : String} {l : List String}
      (hc : c ∈ childrenGet cm (some a)) (hp : ChildPath cm c b l) :
      ChildPath cm a b (a :: l)

/-! ## Lemmas on the children map -/

theorem childrenGet_addChild (m : List (Option String × List String))
    (q : Option String) (c : String) (p : Option String) :
    childrenGet (addChild m q c) p =
      if q = p then childrenGet m p ++ [c] else childrenGet m p := by
  induction m with
  | nil =>
    by_cases h : q = p <;> simp [addChild, childrenGet, h]
  | cons kv rest ih =>
    obtain ⟨k, cs⟩ := kv
    by_cases hkq : k = q
    · subst hkq
      by_cases hkp : k = p
      · subst hkp
        simp [addChild, childrenGet]
      · simp [addChild, childrenGet, hkp, Ne.symm hkp]
    · by_cases hkp : k = p
      · subst hkp
        have hqp : ¬ q = k := fun h => hkq h.symm
        simp [addChild, childrenGet, hkq, hqp]
      · simp [addChild, childrenGet, hkq, hkp, ih]

theorem childrenGet_foldl (l : List TreeNode)
    (m : List (Option String × List String)) (p : Option String) :
    childrenGet (l.foldl (fun m nd => addChild m nd.parent_id nd.id) m) p =
      childrenGet m p ++ (l.filter (fun nd => nd.parent_id == p)).map TreeNode.id := by
  induction l generalizing m with
  | nil => simp
  | cons nd l ih =>
    rw [List.foldl_cons, ih, childrenGet_addChild]
    by_cases h : nd.parent_id = p
    · simp [h, List.filter_cons]
    · have h' : (nd.parent_id == p) = false := by simpa using h
      simp [h, List.filter_cons, h']

theorem childrenGet_buildChildren (tree : List TreeNode) (p : Option String) :
    childrenGet (buildChildren tree) p =
      (tree.filter (fun nd => nd.parent_id == p)).map TreeNode.id := by
  rw [buildChildren, childrenGet_foldl]
  simp [childrenGet]

theorem mem_childrenGet (tree : List TreeNode) (p : Option String) (c : String) :
    c ∈ childrenGet (buildChildren tree) p ↔
      ∃ nd, nd ∈ tree ∧ nd.id = c ∧ nd.parent_id = p := by
  rw [childrenGet_buildChildren]
  simp [List.mem_filter]
  constructor
  · rintro ⟨nd, ⟨hmem, hpar⟩, hid⟩
    exact ⟨nd, hmem, hid, hpar⟩
  · rintro ⟨nd, hmem, hid, hpar⟩
    exact ⟨nd, ⟨hmem, hpar⟩, hid⟩

theorem nodup_childrenGet (tree : List TreeNode)
    (hnd : (tree.map TreeNode.id).Nodup) (p : Option String) :
    (childrenGet (buildChildren tree) p).Nodup := by
  rw [childrenGet_buildChildren]
  exact hnd.sublist ((List.filter_sublist tree).map TreeNode.id)

theorem node_eq_of_id_eq (tree : List TreeNode)
    (hnd : (tree.map TreeNode.id).Nodup) :
    ∀ a ∈ tree, ∀ b ∈ tree, a.id = b.id → a = b := by
  induction tree with
  | nil => intro a ha; exact absurd ha (List.not_mem_nil a)
  | cons hd tl ih =>
    intro a ha b hb hab
    rw [List.map_cons, List.nodup_cons] at hnd
    rcases List.mem_cons.mp ha with ha | ha <;>
      rcases List.mem_cons.mp hb with hb | hb
    · rw [ha, hb]
    · refine absurd ?_ hnd.1
      rw [← ha, hab]
      exact List.mem_map_of_mem TreeNode.id hb
    · refine absurd ?_ hnd.1
      rw [← hb, ← hab]
      exact List.mem_map_of_mem TreeNode.id ha
    · exact ih hnd.2 a ha b hb hab

/-! ## Lemmas on the visit sequence -/

theorem mem_print_node_visits_dp (tree : List TreeNode) (dp : String → Nat)
    (Hpar : ∀ nd ∈ tree, ∀ p, nd.parent_id = some p →
      p ∈ tree.map TreeNode.id ∧ dp nd.id = dp p + 1) :
    ∀ f a z, z ∈ print_node_visits (buildChildren tree) f a → z = a ∨ dp a < dp z := by
  intro f
  induction f with
  | zero => intro a z hz; simp [print_node_visits] at hz
  | succ f ih =>
    intro a z hz
    simp only [print_node_visits] at hz
    rcases List.mem_cons.mp hz with h | h
    · left; exact h
    · right
      rcases List.mem_flatMap.mp h with ⟨c, hc, hzc⟩
      obtain ⟨nd, hnd, hid, hpid⟩ := (mem_childrenGet tree (some a) c).mp hc
      have hdc : dp c = dp a + 1 := by
        have := (Hpar nd hnd a hpid).2
        rwa [hid] at this
      rcases ih c z hzc with h' | h'
      · subst h'; omega
      · omega

theorem mem_print_node_visits_origin (cm : List (Option String × List String)) :
    ∀ f a z, z ∈ print_node_visits cm f a →
      z = a ∨ ∃ q, q ∈ print_node_visits cm f a ∧ z ∈ childrenGet cm (some q) := by
  intro f
  induction f with
  | zero => intro a z hz; simp [print_node_visits] at hz
  | succ f ih =>
    intro a z hz
    simp only [print_node_visits] at hz
    rcases List.mem_cons.mp hz with h | h
    · left; exact h
    · right
      rcases List.mem_flatMap.mp h with ⟨c, hc, hzc⟩
      rcases ih c z hzc with h' | h'
      · subst h'
        exact ⟨a, by simp [print_node_visits], hc⟩
      · obtain ⟨q, hq, hzq⟩ := h'
        refine ⟨q, ?_, hzq⟩
        simp only [print_node_visits]
        exact List.mem_cons_of_mem _ (List.mem_flatMap.mpr ⟨c, hc, hq⟩)

theorem mem_tree_traversal_origin (tree : List TreeNode) (z : String)
    (hz : z ∈ tree_traversal tree) :
    z ∈ childrenGet (buildChildren tree) none ∨
      ∃ q, q ∈ tree_traversal tree ∧ z ∈ childrenGet (buildChildren tree) (some q) := by
  rw [tree_traversal] at hz
  rcases List.mem_flatMap.mp hz with ⟨r, hr, hzr⟩
  rcases mem_print_node_visits_origin _ _ r z hzr with h | ⟨q, hq, hzq⟩
  · left; rw [h]; exact hr
  · right
    refine ⟨q, ?_, hzq⟩
    rw [tree_traversal]
    exact List.mem_flatMap.mpr ⟨r, hr, hq⟩

theorem tree_traversal_subset_ids (tree : List TreeNode) :
    ∀ z ∈ tree_traversal tree, z ∈ tree.map TreeNode.id := by
  intro z hz
  rcases mem_tree_traversal_origin tree z hz with h | ⟨q, _, h⟩ <;>
  · obtain ⟨nd, hnd, hid, _⟩ := (mem_childrenGet tree _ z).mp h
    rw [← hid]
    exact List.mem_map_of_mem _ hnd

/-! ## Lemmas on child paths -/

theorem ChildPath.snoc {cm : List (Option String × List String)}
    {a b c : String} {l : List String} (hp : ChildPath cm a b l)
    (hc : c ∈ childrenGet cm (some b)) : ChildPath cm a c (l ++ [c]) := by
  induction hp with
  | refl a => exact .step hc (.refl c)
  | step hc' hp ih => exact .step hc' (ih hc)

theorem ChildPath.mem_visits {cm : List (Option String × List String)}
    {a b : String} {l : List String} (hp : ChildPath cm a b l) :
    ∀ f, l.length ≤ f → b ∈ print_node_visits cm f a := by
  induction hp with
  | refl a =>
    intro f hf
    match f, hf with
    | f + 1, _ => simp [print_node_visits]
  | step hc hp ih =>
    rename_i a b c l
    intro f hf
    match f, hf with
    | f + 1, hf =>
      simp only [print_node_visits]
      refine List.mem_cons_of_mem _ (List.mem_flatMap.mpr ⟨c, hc, ih f ?_⟩)
      simpa using Nat.le_of_succ_le_succ hf

theorem ChildPath.dp_get (tree : List TreeNode) (dp : String → Nat)
    (Hpar : ∀ nd ∈ tree, ∀ p, nd.parent_id = some p →
      p ∈ tree.map TreeNode.id ∧ dp nd.id = dp p + 1)
    {a b : String} {l : List String}
    (hp : ChildPath (buildChildren tree) a b l) :
    ∀ i (h : i < l.length), dp (l.get ⟨i, h⟩) = dp a + i := by
  induction hp with
  | refl a =>
    intro i h
    have h1 : i = 0 := by simpa [Nat.lt_one_iff] using h
    subst h1
    simp
  | step hc hp ih =>
    rename_i a b c l
    intro i h
    obtain ⟨nd, hnd, hid, hpid⟩ := (mem_childrenGet tree (some a) c).mp hc
    have hdc : dp c = dp a + 1 := by
      have := (Hpar nd hnd a hpid).2
      rwa [hid] at this
    match i with
    | 0 => simp
    | i + 1 =>
      have h' : i < l.length := by simpa using Nat.lt_of_succ_lt_succ h
      have := ih i h'
      simp only [List.get_cons_succ]
      omega

theorem ChildPath.subset_ids (tree : List TreeNode) {a b : String} {l : List String}
    (hp : ChildPath (buildChildren tree) a b l) (ha : a ∈ tree.map TreeNode.id) :
    ∀ q ∈ l, q ∈ tree.map TreeNode.id := by
  induction hp with
  | refl a =>
    intro q hq
    simp at hq
    rwa [hq]
  | step hc hp ih =>
    rename_i a b c l
    intro q hq
    rcases List.mem_cons.mp hq with h | h
    · rwa [h]
    · refine ih ?_ q h
      obtain ⟨nd, hnd, hid, _⟩ := (mem_childrenGet tree (some a) c).mp hc
      rw [← hid]
      exact List.mem_map_of_mem _ hnd

theorem ChildPath.nodup (tree : List TreeNode) (dp : String → Nat)
    (Hpar : ∀ nd ∈ tree, ∀ p, nd.parent_id = some p →
      p ∈ tree.map TreeNode.id ∧ dp nd.id = dp p + 1)
    {a b : String} {l : List String}
    (hp : ChildPath (buildChildren tree) a b l) : l.Nodup := by
  rw [List.nodup_iff_injective_get]
  intro i j hij
  have hi := hp.dp_get tree dp Hpar i.1 i.2
  have hj := hp.dp_get tree dp Hpar j.1 j.2
  have : dp a + i.1 = dp a + j.1 := by
    rw [← hi, ← hj, hij]
  exact Fin.ext (by omega)

theorem ChildPath.length_le (tree : List TreeNode) (dp : String → Nat)
    (Hpar : ∀ nd ∈ tree, ∀ p, nd.parent_id = some p →
      p ∈ tree.map TreeNode.id ∧ dp nd.id = dp p + 1)
    {a b : String} {l : List String}
    (hp : ChildPath (buildChildren tree) a b l) (ha : a ∈ tree.map TreeNode.id) :
    l.length ≤ tree.length := by
  have h1 : l.Nodup := hp.nodup tree dp Hpar
  have h2 : l ⊆ tree.map TreeNode.id := fun q hq => hp.subset_ids tree ha q hq
  have := (List.subperm_of_subset h1 h2).length_le
  simpa using this

theorem exists_root_path (tree : List TreeNode) (dp : String → Nat)
    (Hroot : ∀ nd ∈ tree, nd.parent_id = none → dp nd.id = 0)
    (Hpar : ∀ nd ∈ tree, ∀ p, nd.parent_id = some p →
      p ∈ tree.map TreeNode.id ∧ dp nd.id = dp p + 1) :
    ∀ d, ∀ x ∈ tree, dp x.id ≤ d →
      ∃ r l, r ∈ childrenGet (buildChildren tree) none ∧
        ChildPath (buildChildren tree) r x.id l ∧ l.length = dp x.id + 1 := by
  intro d
  induction d with
  | zero =>
    intro x hx hdx
    cases hpid : x.parent_id with
    | none =>
      have h0 : dp x.id = 0 := Hroot x hx hpid
      refine ⟨x.id, [x.id], ?_, .refl x.id, by simp [h0]⟩
      exact (mem_childrenGet tree none x.id).mpr ⟨x, hx, rfl, hpid⟩
    | some p =>
      have := (Hpar x hx p hpid).2
      omega
  | succ d ih =>
    intro x hx hdx
    cases hpid : x.parent_id with
    | none =>
      have h0 : dp x.id = 0 := Hroot x hx hpid
      refine ⟨x.id, [x.id], ?_, .refl x.id, by simp [h0]⟩
      exact (mem_childrenGet tree none x.id).mpr ⟨x, hx, rfl, hpid⟩
    | some p =>
      obtain ⟨hpids, hdp⟩ := Hpar x hx p hpid
      obtain ⟨np, hnp, hnpid⟩ := List.mem_map.mp hpids
      have hnple : dp np.id ≤ d := by rw [hnpid]; omega
      obtain ⟨r, l, hr, hpath, hlen⟩ := ih np hnp hnple
      rw [hnpid] at hpath hlen
      refine ⟨r, l ++ [x.id], hr, hpath.snoc ?_, ?_⟩
      · exact (mem_childrenGet tree (some p) x.id).mpr ⟨x, hx, rfl, hpid⟩
      · simp [hlen]
        omega

theorem mem_tree_traversal (tree : List TreeNode) (dp : String → Nat)
    (Hroot : ∀ nd ∈ tree, nd.parent_id = none → dp nd.id = 0)
    (Hpar : ∀ nd ∈ tree, ∀ p, nd.parent_id = some p →
      p ∈ tree.map TreeNode.id ∧ dp nd.id = dp p + 1) :
    ∀ x ∈ tree, x.id ∈ tree_traversal tree := by
  intro x hx
  obtain ⟨r, l, hr, hpath, hlen⟩ :=
    exists_root_path tree dp Hroot Hpar (dp x.id) x hx le_rfl
  have hrids : r ∈ tree.map TreeNode.id := by
    obtain ⟨nd, hnd, hid, _⟩ := (mem_childrenGet tree none r).mp hr
    rw [← hid]
    exact List.mem_map_of_mem _ hnd
  have hle : l.length ≤ tree.length := hpath.length_le tree dp Hpar hrids
  rw [tree_traversal]
  exact List.mem_flatMap.mpr ⟨r, hr, hpath.mem_visits tree.length hle⟩

/-! ## Lemmas on strict precedence -/

theorem Pre.of_not_mem {q y : String} {L : List String} (h : y ∉ L) : Pre q y L := by
  intro A B hAB
  exact absurd (hAB ▸ List.mem_append_right A (List.mem_cons_self y B)) h

theorem Pre.append {q y : String} {L₁ L₂ : List String}
    (h1 : Pre q y L₁) (h2 : q ∈ L₁ ∨ Pre q y L₂) : Pre q y (L₁ ++ L₂) := by
  intro A B hAB
  rcases List.append_eq_append_iff.mp hAB.symm with ⟨A₂, hA, hL₂⟩ | ⟨c', hL₁, hcons⟩
  · match A₂, hA, hL₂ with
    | [], hA, hL₂ =>
      rcases h2 with h2 | h2
      · rw [List.append_nil] at hA
        rwa [hA] at h2
      · have := h2 [] B (by simpa using hL₂.symm)
        simp at this
    | a₂ :: A₂', hA, hL₂ =>
      have hy : a₂ = y ∧ A₂' ++ L₂ = B := by
        have := hL₂
        simp at this
        exact ⟨this.1.symm, this.2.symm⟩
      exact h1 A A₂' (by rw [hA, hy.1])
  · rcases h2 with h2 | h2
    · rw [hL₁]
      exact List.mem_append_left c' h2
    · rw [hL₁]
      exact List.mem_append_right L₁ (h2 c' B hcons)

theorem Pre.flatMap {q y : String} {g : String → List String} {L : List String}
    (h : ∀ c ∈ L, Pre q y (g c)) : Pre q y (L.flatMap g) := by
  induction L with
  | nil => exact Pre.of_not_mem (by simp)
  | cons c L ih =>
    rw [List.flatMap_cons]
    exact (h c (List.mem_cons_self c L)).append
      (Or.inr (ih fun c' hc' => h c' (List.mem_cons_of_mem c hc')))

theorem Pre.firstIdx_lt {q y : String} {L : List String}
    (hp : Pre q y L) (hy : y ∈ L) :
    q ∈ L ∧ firstIdx q L < firstIdx y L := by
  induction L with
  | nil => simp at hy
  | cons a l ih =>
    by_cases hay : a = y
    · subst hay
      have := hp [] l rfl
      simp at this
    · have hyl : y ∈ l := by
        rcases List.mem_cons.mp hy with h | h
        · exact absurd h.symm hay
        · exact h
      by_cases hqa : q = a
      · subst hqa
        constructor
        · exact List.mem_cons_self q l
        · simp [firstIdx, hay]
      · have hpl : Pre q y l := by
          intro A B hAB
          have := hp (a :: A) B (by rw [hAB]; rfl)
          rcases List.mem_cons.mp this with h | h
          · exact absurd h hqa
          · exact h
        obtain ⟨hql, hidx⟩ := ih hpl hyl
        constructor
        · exact List.mem_cons_of_mem a hql
        · have haq : ¬ a = q := fun h => hqa h.symm
          simp [firstIdx, hay, haq]
          omega

theorem pre_flatMap_blocks {q y : String} {g : String → List String}
    {cs1 cs2 : List String}
    (h1 : ∀ c ∈ cs1, Pre q y (g c)) (h2 : y ∉ g q)
    (h3 : q ∈ g q ∨ ∀ c ∈ cs2, y ∉ g c) :
    Pre q y ((cs1 ++ q :: cs2).flatMap g) := by
  rw [List.flatMap_append, List.flatMap_cons]
  refine (Pre.flatMap h1).append (Or.inr ?_)
  refine (Pre.of_not_mem h2).append ?_
  rcases h3 with h3 | h3
  · exact Or.inl h3
  · exact Or.inr (Pre.flatMap fun c hc => Pre.of_not_mem (h3 c hc))

theorem pre_parent_visits (tree : List TreeNode)
    (hnd : (tree.map TreeNode.id).Nodup)
    {ynd : TreeNode} (hy : ynd ∈ tree) {p : String} (hp : ynd.parent_id = some p) :
    ∀ f a, a ≠ ynd.id → Pre p ynd.id (print_node_visits (buildChildren tree) f a) := by
  intro f
  induction f with
  | zero =>
    intro a _
    exact Pre.of_not_mem (by simp [print_node_visits])
  | succ f ih =>
    intro a ha
    simp only [print_node_visits]
    intro A B hAB
    rcases List.cons_eq_append_iff.mp hAB with ⟨_, hB⟩ | ⟨A', hA, hrest⟩
    · injection hB with h1 _
      exact absurd h1.symm ha
    · subst hA
      by_cases hap : a = p
      · exact List.mem_cons.mpr (Or.inl hap.symm)
      · refine List.mem_cons_of_mem a ?_
        have hpre : Pre p ynd.id
            ((childrenGet (buildChildren tree) (some a)).flatMap
              (print_node_visits (buildChildren tree) f)) := by
          refine Pre.flatMap fun c hc => ?_
          have hcny : c ≠ ynd.id := by
            intro h
            subst h
            obtain ⟨nd, hnd', hid, hpid⟩ :=
              (mem_childrenGet tree (some a) ynd.id).mp hc
            have hEq : nd = ynd := node_eq_of_id_eq tree hnd nd hnd' ynd hy hid
            rw [hEq, hp] at hpid
            exact hap (Option.some.inj hpid.symm)
          exact ih c hcny
        exact hpre A' B hrest

theorem pre_parent_traversal (tree : List TreeNode)
    (hnd : (tree.map TreeNode.id).Nodup)
    {ynd : TreeNode} (hy : ynd ∈ tree) {p : String} (hp : ynd.parent_id = some p) :
    Pre p ynd.id (tree_traversal tree) := by
  rw [tree_traversal]
  refine Pre.flatMap fun r hr => ?_
  have hrne : r ≠ ynd.id := by
    intro h
    subst h
    obtain ⟨nd, hnd', hid, hpid⟩ := (mem_childrenGet tree none ynd.id).mp hr
    have hEq : nd = ynd := node_eq_of_id_eq tree hnd nd hnd' ynd hy hid
    rw [hEq, hp] at hpid
    cases hpid
  exact pre_parent_visits tree hnd hy hp tree.length r hrne

theorem pre_sibling_visits (tree : List TreeNode) (dp : String → Nat)
    (hnd : (tree.map TreeNode.id).Nodup)
    (Hpar : ∀ nd ∈ tree, ∀ p, nd.parent_id = some p →
      p ∈ tree.map TreeNode.id ∧ dp nd.id = dp p + 1)
    {xnd ynd : TreeNode} (hy : ynd ∈ tree)
    (hne : xnd.id ≠ ynd.id) (hpar_eq : xnd.parent_id = ynd.parent_id)
    {cs1 cs2 : List String}
    (hsplit : childrenGet (buildChildren tree) xnd.parent_id = cs1 ++ xnd.id :: cs2)
    (hy2 : ynd.id ∈ cs2) (hdpeq : dp xnd.id = dp ynd.id) :
    ∀ f a, a ≠ ynd.id → Pre xnd.id ynd.id (print_node_visits (buildChildren tree) f a) := by
  intro f
  induction f with
  | zero =>
    intro a _
    exact Pre.of_not_mem (by simp [print_node_visits])
  | succ f ih =>
    intro a ha
    simp only [print_node_visits]
    intro A B hAB
    rcases List.cons_eq_append_iff.mp hAB with ⟨_, hB⟩ | ⟨A', hA, hrest⟩
    · injection hB with h1 _
      exact absurd h1.symm ha
    · subst hA
      by_cases hax : a = xnd.id
      · exact List.mem_cons.mpr (Or.inl hax.symm)
      · refine List.mem_cons_of_mem a ?_
        suffices hpre : Pre xnd.id ynd.id
            ((childrenGet (buildChildren tree) (some a)).flatMap
              (print_node_visits (buildChildren tree) f)) from hpre A' B hrest
        by_cases hap : xnd.parent_id = some a
        · have hsplit' : childrenGet (buildChildren tree) (some a) =
              cs1 ++ xnd.id :: cs2 := by rw [← hap, hsplit]
          rw [hsplit']
          refine pre_flatMap_blocks ?_ ?_ ?_
          · intro c hc
            have hndl : (cs1 ++ xnd.id :: cs2).Nodup := by
              rw [← hsplit']
              exact nodup_childrenGet tree hnd _
            have hdisj := List.disjoint_of_nodup_append hndl
            have hcny : c ≠ ynd.id := by
              intro h
              subst h
              exact hdisj hc (List.mem_cons_of_mem _ hy2)
            exact ih c hcny
          · intro hmem
            rcases mem_print_node_visits_dp tree dp Hpar f xnd.id ynd.id hmem with h | h
            · exact hne h.symm
            · omega
          · cases f with
            | zero =>
              right
              intro c _
              simp [print_node_visits]
            | succ f' =>
              left
              simp [print_node_visits]
        · refine Pre.flatMap fun c hc => ?_
          have hcny : c ≠ ynd.id := by
            intro h
            subst h
            obtain ⟨nd, hnd', hid, hpid⟩ :=
              (mem_childrenGet tree (some a) ynd.id).mp hc
            have hEq : nd = ynd := node_eq_of_id_eq tree hnd nd hnd' ynd hy hid
            rw [hEq] at hpid
            exact hap (by rw [hpar_eq, hpid])
          exact ih c hcny

theorem pre_sibling_traversal (tree : List TreeNode) (dp : String → Nat)
    (hnd : (tree.map TreeNode.id).Nodup)
    (Hpar : ∀ nd ∈ tree, ∀ p, nd.parent_id = some p →
      p ∈ tree.map TreeNode.id ∧ dp nd.id = dp p + 1)
    {xnd ynd : TreeNode} (hx : xnd ∈ tree) (hy : ynd ∈ tree)
    (hne : xnd.id ≠ ynd.id) (hpar_eq : xnd.parent_id = ynd.parent_id)
    {cs1 cs2 : List String}
    (hsplit : childrenGet (buildChildren tree) xnd.parent_id = cs1 ++ xnd.id :: cs2)
    (hy2 : ynd.id ∈ cs2) (hdpeq : dp xnd.id = dp ynd.id) :
    Pre xnd.id ynd.id (tree_traversal tree) := by
  rw [tree_traversal]
  cases hp : xnd.parent_id with
  | none =>
    have hsplit' : childrenGet (buildChildren tree) none = cs1 ++ xnd.id :: cs2 := by
      rw [← hp, hsplit]
    rw [hsplit']
    refine pre_flatMap_blocks ?_ ?_ ?_
    · intro c hc
      have hndl : (cs1 ++ xnd.id :: cs2).Nodup := by
        rw [← hsplit']
        exact nodup_childrenGet tree hnd _
      have hdisj := List.disjoint_of_nodup_append hndl
      have hcny : c ≠ ynd.id := by
        intro h
        subst h
        exact hdisj hc (List.mem_cons_of_mem _ hy2)
      exact pre_sibling_visits tree dp hnd Hpar hy hne hpar_eq hsplit hy2 hdpeq
        tree.length c hcny
    · intro hmem
      rcases mem_print_node_visits_dp tree dp Hpar tree.length xnd.id ynd.id hmem with h | h
      · exact hne h.symm
      · omega
    · left
      have hlen : tree.length ≠ 0 := by
        intro h
        rw [List.length_eq_zero] at h
        subst h
        simp at hx
      cases hn : tree.length with
      | zero => exact absurd hn hlen
      | succ n => simp [print_node_visits]
  | some pp =>
    refine Pre.flatMap fun r hr => ?_
    have hrne : r ≠ ynd.id := by
      intro h
      subst h
      obtain ⟨nd, hnd', hid, hpid⟩ := (mem_childrenGet tree none ynd.id).mp hr
      have hEq : nd = ynd := node_eq_of_id_eq tree hnd nd hnd' ynd hy hid
      rw [hEq] at hpid
      rw [← hpar_eq, hp] at hpid
      cases hpid
    exact pre_sibling_visits tree dp hnd Hpar hy hne hpar_eq hsplit hy2 hdpeq
      tree.length r hrne

theorem exists_split_of_lt (l : List TreeNode) :
    ∀ i j (hi : i < l.length) (hj : j < l.length), i < j →
      ∃ t1 t2, l = t1 ++ l.get ⟨i, hi⟩ :: t2 ∧ l.get ⟨j, hj⟩ ∈ t2 := by
  induction l with
  | nil =>
    intro i j hi
    simp at hi
  | cons a l ih =>
    intro i j hi hj hij
    match i, j, hi, hj, hij with
    | 0, j + 1, hi, hj, _ =>
      refine ⟨[], l, by simp, ?_⟩
      simp only [List.get_cons_succ]
      exact List.get_mem l _ _
    | i + 1, j + 1, hi, hj, hij =>
      obtain ⟨t1, t2, hdec, hmem⟩ :=
        ih i j (by simpa using hi) (by simpa using hj) (by omega)
      refine ⟨a :: t1, t2, ?_, hmem⟩
      simp only [List.get_cons_succ, List.cons_append]
      rw [← hdec]

theorem sibling_split (tree : List TreeNode) {x y : TreeNode} {t1 t2 : List TreeNode}
    (hdecomp : tree = t1 ++ x :: t2) (hy : y ∈ t2)
    (hpar_eq : x.parent_id = y.parent_id) :
    ∃ cs1 cs2, childrenGet (buildChildren tree) x.parent_id =
      cs1 ++ x.id :: cs2 ∧ y.id ∈ cs2 := by
  refine ⟨(t1.filter (fun nd => nd.parent_id == x.parent_id)).map TreeNode.id,
          (t2.filter (fun nd => nd.parent_id == x.parent_id)).map TreeNode.id, ?_, ?_⟩
  · rw [childrenGet_buildChildren, hdecomp, List.filter_append, List.filter_cons]
    have hx : (x.parent_id == x.parent_id) = true := by simp
    simp [hx]
  · exact List.mem_map_of_mem _ (List.mem_filter.mpr ⟨hy, by simp [hpar_eq]⟩)

theorem get_id_ne (tree : List TreeNode) (hnd : (tree.map TreeNode.id).Nodup)
    {i j : Nat} (hi : i < tree.length) (hj : j < tree.length) (hij : i ≠ j) :
    (tree.get ⟨i, hi⟩).id ≠ (tree.get ⟨j, hj⟩).id := by
  intro h
  have hinj := List.nodup_iff_injective_getElem.mp hnd
  have hi' : i < (tree.map TreeNode.id).length := by simpa using hi
  have hj' : j < (tree.map TreeNode.id).length := by simpa using hj
  have hEq : (⟨i, hi'⟩ : Fin (tree.map TreeNode.id).length) = ⟨j, hj'⟩ := by
    apply hinj
    simpa using h
  exact hij (by simpa using congrArg Fin.val hEq)

/-! ## Helper lemmas for the executor claims -/

theorem handle_response_error_of_ge (r : HttpResponse) (h : 400 ≤ r.status_code) :
    ∃ err, handle_response r = Except.error err := by
  simp only [handle_response]
  split_ifs with h1 h2 h3
  · exact ⟨_, rfl⟩
  · exact ⟨_, rfl⟩
  · exact ⟨_, rfl⟩
  · exact ⟨_, rfl⟩

theorem handle_response_async_eq (r : HttpResponse) :
    handle_response_async r = handle_response r := rfl

theorem sse_from_eq (jl : String → Option Json) :
    ∀ lines et dl, parse_sse_stream_async_from jl lines et dl =
      parse_sse_stream_from jl lines et dl := by
  intro lines
  induction lines with
  | nil =>
    intro et dl
    rfl
  | cons rawLine rest ih =>
    intro et dl
    simp only [parse_sse_stream_from, parse_sse_stream_async_from, ih]

/-! ## Claim theorems -/

/-- C1: decoding the twelve-line sequence of the spec's streaming example
with the SSE decoder (and equally with its async twin) yields exactly four
events of kinds start, delta, delta, done; the two delta events' `content`
accessors return "Hello " and "world!", which concatenate to
"Hello world!", and the done event's `node_id` accessor returns "n-1". -/
theorem c1_sse_decode_multi_event :
    parse_sse_stream jsonLoads
        ["event: start", "data: \x7b\x7d", "",
         "event: delta", "data: \x7b\"content\":\"Hello \"\x7d", "",
         "event: delta", "data: \x7b\"content\":\"world!\"\x7d", "",
         "event: done", "data: \x7b\"node_id\":\"n-1\"\x7d", ""] =
      [⟨.start, .obj []⟩,
       ⟨.delta, .obj [("content", .str "Hello ")]⟩,
       ⟨.delta, .obj [("content", .str "world!")]⟩,
       ⟨.done, .obj [("node_id", .str "n-1")]⟩]
    ∧ parse_sse_stream_async jsonLoads
        ["event: start", "data: \x7b\x7d", "",
         "event: delta", "data: \x7b\"content\":\"Hello \"\x7d", "",
         "event: delta", "data: \x7b\"content\":\"world!\"\x7d", "",
         "event: done", "data: \x7b\"node_id\":\"n-1\"\x7d", ""] =
      [⟨.start, .obj []⟩,
       ⟨.delta, .obj [("content", .str "Hello ")]⟩,
       ⟨.delta, .obj [("content", .str "world!")]⟩,
       ⟨.done, .obj [("node_id", .str "n-1")]⟩]
    ∧ (parse_sse_stream jsonLoads
        ["event: start", "data: \x7b\x7d", "",
         "event: delta", "data: \x7b\"content\":\"Hello \"\x7d", "",
         "event: delta", "data: \x7b\"content\":\"world!\"\x7d", "",
         "event: done", "data: \x7b\"node_id\":\"n-1\"\x7d", ""]).map SSEEvent.event =
      [.start, .delta, .delta, .done]
    ∧ (parse_sse_stream jsonLoads
        ["event: start", "data: \x7b\x7d", "",
         "event: delta", "data: \x7b\"content\":\"Hello \"\x7d", "",
         "event: delta", "data: \x7b\"content\":\"world!\"\x7d", "",
         "event: done", "data: \x7b\"node_id\":\"n-1\"\x7d", ""]).map SSEEvent.content =
      [none, some (.str "Hello "), some (.str "world!"), none]
    ∧ (parse_sse_stream jsonLoads
        ["event: start", "data: \x7b\x7d", "",
         "event: delta", "data: \x7b\"content\":\"Hello \"\x7d", "",
         "event: delta", "data: \x7b\"content\":\"world!\"\x7d", "",
         "event: done", "data: \x7b\"node_id\":\"n-1\"\x7d", ""]).map SSEEvent.node_id =
      [none, none, none, some (.str "n-1")]
    ∧ "Hello " ++ "world!" = "Hello world!" :=
  ⟨rfl, rfl, rfl, rfl, rfl, rfl⟩

/-- C8: an event terminated while the pending event-type string matches
none of start, delta, done, error is discarded silently — nothing is
emitted for it and decoding continues with cleared state, so later
well-formed events are still emitted; in particular an unknown_event block
followed by a start block decodes to exactly one start event. -/
theorem c8_unknown_event_type_dropped :
    (∀ (jl : String → Option Json) (rest : List String) (et d : String)
        (ds : List String), SSEEventType.fromString et = none →
        parse_sse_stream_from jl ("" :: rest) (some et) (d :: ds) =
          parse_sse_stream_from jl rest none [])
    ∧ parse_sse_stream jsonLoads
        ["event: unknown_event", "data: \x7b\x7d", "",
         "event: start", "data: \x7b\x7d", ""] =
      [⟨.start, .obj []⟩] := by
  constructor
  · intro jl rest et d ds h
    simp only [parse_sse_stream_from]
    rw [h]
    rfl
  · rfl

/-- Witness for C8: the general discard step applied to the pending type
"unknown_event" with one data fragment and an empty remainder. -/
theorem c8_unknown_event_type_dropped_witness :
    SSEEventType.fromString "unknown_event" = none ∧
    parse_sse_stream_from jsonLoads [""] (some "unknown_event") ["x"] =
      parse_sse_stream_from jsonLoads [] none [] :=
  ⟨rfl, c8_unknown_event_type_dropped.1 jsonLoads [] "unknown_event" "x" [] rfl⟩

/-- C9: a terminated event whose newline-joined data fragments fail to
parse as JSON never raises: the decoder emits the event with the payload
wrapping the raw joined string under a message key; in particular an error
event with plain-text data yields exactly one error event with that
message payload. -/
theorem c9_non_json_payload_wrapped :
    (∀ (jl : String → Option Json) (rest : List String) (et : String)
        (t : SSEEventType) (d : String) (ds : List String),
        SSEEventType.fromString et = some t →
        jl (String.intercalate "\n" (d :: ds)) = none →
        parse_sse_stream_from jl ("" :: rest) (some et) (d :: ds) =
          ⟨t, .obj [("message", .str (String.intercalate "\n" (d :: ds)))]⟩ ::
            parse_sse_stream_from jl rest none [])
    ∧ parse_sse_stream jsonLoads ["event: error", "data: something went wrong", ""] =
      [⟨.error, .obj [("message", .str "something went wrong")]⟩] := by
  constructor
  · intro jl rest et t d ds ht hjl
    simp only [parse_sse_stream_from]
    rw [hjl, ht]
    rfl
  · rfl

/-- Witness for C9: the non-JSON fallback step applied to the pending type
"error" with the plain-text fragment of the spec's example. -/
theorem c9_non_json_payload_wrapped_witness :
    SSEEventType.fromString "error" = some .error ∧
    jsonLoads (String.intercalate "\n" ["something went wrong"]) = none ∧
    parse_sse_stream_from jsonLoads [""] (some "error") ["something went wrong"] =
      [⟨.error, .obj [("message", .str (String.intercalate "\n" ["something went wrong"]))]⟩] :=
  ⟨rfl, rfl,
    c9_non_json_payload_wrapped.1 jsonLoads [] "error" .error "something went wrong" [] rfl rfl⟩

/-- C2: the classifier maps 401 to an authentication error, 404 to a
not-found error, 400 to a bad-request error, and any other status of at
least 400 to a generic API error, always carrying the status code; when
the body does not parse the fixed per-code default message is used, so the
status code is never lost; a status below 400 raises nothing and returns
the parsed structured body, and a body is never returned for an error
status. -/
theorem c2_handle_response_classification (r : HttpResponse) :
    (r.status_code = 401 → handle_response r = .error (.apiError .authentication
        ⟨extractMessage (jsonLoads r.body) "Authentication failed", some r.status_code, none⟩))
    ∧ (r.status_code = 404 → handle_response r = .error (.apiError .notFound
        ⟨extractMessage (jsonLoads r.body) "Resource not found", some r.status_code, none⟩))
    ∧ (r.status_code = 400 → handle_response r = .error (.apiError .badRequest
        ⟨extractMessage (jsonLoads r.body) "Bad request", some r.status_code, none⟩))
    ∧ (400 ≤ r.status_code → r.status_code ≠ 400 → r.status_code ≠ 401 →
        r.status_code ≠ 404 → handle_response r = .error (.apiError .base
        ⟨extractMessage (jsonLoads r.body) ("API error: " ++ toString r.status_code),
         some r.status_code, none⟩))
    ∧ (∀ dflt, jsonLoads r.body = none →
        extractMessage (jsonLoads r.body) dflt = Json.str dflt)
    ∧ (400 ≤ r.status_code → ∃ k d, handle_response r = .error (.apiError k d) ∧
        d.status_code = some r.status_code)
    ∧ (400 ≤ r.status_code → ∀ j, handle_response r ≠ .ok j)
    ∧ (r.status_code < 400 → ∀ j, jsonLoads r.body = some j →
        handle_response r = .ok j) := by
  refine ⟨?_, ?_, ?_, ?_, ?_, ?_, ?_, ?_⟩
  · intro h
    simp [handle_response, h]
  · intro h
    simp [handle_response, h]
  · intro h
    simp [handle_response, h]
  · intro h h1 h2 h3
    simp [handle_response, h, h1, h2, h3]
  · intro dflt h
    rw [h]
    rfl
  · intro h
    by_cases h1 : r.status_code = 401
    · refine ⟨.authentication, ⟨extractMessage (jsonLoads r.body) "Authentication failed",
        some r.status_code, none⟩, ?_, rfl⟩
      simp [handle_response, h1]
    · by_cases h2 : r.status_code = 404
      · refine ⟨.notFound, ⟨extractMessage (jsonLoads r.body) "Resource not found",
          some r.status_code, none⟩, ?_, rfl⟩
        simp [handle_response, h2]
      · by_cases h3 : r.status_code = 400
        · refine ⟨.badRequest, ⟨extractMessage (jsonLoads r.body) "Bad request",
            some r.status_code, none⟩, ?_, rfl⟩
          simp [handle_response, h3]
        · refine ⟨.base, ⟨extractMessage (jsonLoads r.body)
            ("API error: " ++ toString r.status_code), some r.status_code, none⟩, ?_, rfl⟩
          simp [handle_response, h, h1, h2, h3]
  · intro h j heq
    obtain ⟨err, herr⟩ := handle_response_error_of_ge r h
    rw [herr] at heq
    cases heq
  · intro h j hj
    have h1 : r.status_code ≠ 401 := by omega
    have h2 : r.status_code ≠ 404 := by omega
    have h3 : r.status_code ≠ 400 := by omega
    have h4 : ¬ 400 ≤ r.status_code := by omega
    simp [handle_response, h1, h2, h3, h4, hj]

/-- Witness for C2: a 404 response with a parsable error body fails with a
not-found error carrying status 404 and the body's message, and a 404
response with an unparsable body still fails with a not-found error using
the default message. -/
theorem c2_handle_response_classification_witness :
    handle_response ⟨404, "\x7b\"error\":\"not found\"\x7d"⟩ =
      .error (.apiError .notFound ⟨.str "not found", some 404, none⟩) ∧
    handle_response ⟨404, "<html>"⟩ =
      .error (.apiError .notFound ⟨.str "Resource not found", some 404, none⟩) := by
  constructor
  · have h := (c2_handle_response_classification ⟨404, "\x7b\"error\":\"not found\"\x7d"⟩).2.1 rfl
    rw [h]
    rfl
  · have h := (c2_handle_response_classification ⟨404, "<html>"⟩).2.1 rfl
    rw [h]
    rfl

/-- Counterexample to C5: for a 404 response whose body parses as
structured data, the classifier raises a not-found error whose
response_body attribute is None — the parsed body is not carried on the
raised error. -/
theorem c5_response_body_counterexample :
    (jsonLoads "\x7b\"error\":\"not found\"\x7d").isSome = true ∧
    handle_response ⟨404, "\x7b\"error\":\"not found\"\x7d"⟩ =
      .error (.apiError .notFound ⟨.str "not found", some 404, none⟩) :=
  ⟨rfl, rfl⟩

/-- C5 (amended): every typed API error raised by the classifier carries
the response's status code, and its response_body attribute is always None
— the classifier never attaches the parsed body to the raised error. -/
theorem c5_error_fields_amended (r : HttpResponse) (k : APIErrorKind)
    (d : APIErrorData) (h : handle_response r = .error (.apiError k d)) :
    d.status_code = some r.status_code ∧ d.response_body = none := by
  simp only [handle_response] at h
  split_ifs at h with h1 h2 h3 h4
  · simp only [Except.error.injEq, PyError.apiError.injEq] at h
    rw [← h.2]
    exact ⟨rfl, rfl⟩
  · simp only [Except.error.injEq, PyError.apiError.injEq] at h
    rw [← h.2]
    exact ⟨rfl, rfl⟩
  · simp only [Except.error.injEq, PyError.apiError.injEq] at h
    rw [← h.2]
    exact ⟨rfl, rfl⟩
  · simp only [Except.error.injEq, PyError.apiError.injEq] at h
    rw [← h.2]
    exact ⟨rfl, rfl⟩
  · split at h <;> simp at h

/-- Witness for C5 (amended): the amended statement applied to the 404
response with a parsable body. -/
theorem c5_error_fields_amended_witness :
    (⟨Json.str "not found", some 404, none⟩ : APIErrorData).status_code = some 404 ∧
    (⟨Json.str "not found", some 404, none⟩ : APIErrorData).response_body = none :=
  c5_error_fields_amended ⟨404, "\x7b\"error\":\"not found\"\x7d"⟩ .notFound
    ⟨Json.str "not found", some 404, none⟩ rfl

/-- C3: for every flat node list forming a valid forest (distinct ids and
a depth function witnessing that parents resolve and the parent relation
is well-founded), the reconstruction builds the children map preserving
the input order of the list (each key maps to exactly the ids whose nodes
carry that parent, in list order, without re-sorting), traversal reaches
every node, every child appears strictly after its parent in the visit
sequence, and siblings appear in input order. -/
theorem c3_tree_reconstruction_preorder (tree : List TreeNode) (dp : String → Nat)
    (hnd : (tree.map TreeNode.id).Nodup)
    (Hroot : ∀ nd ∈ tree, nd.parent_id = none → dp nd.id = 0)
    (Hpar : ∀ nd ∈ tree, ∀ p, nd.parent_id = some p →
      p ∈ tree.map TreeNode.id ∧ dp nd.id = dp p + 1) :
    (∀ P, childrenGet (buildChildren tree) P =
      (tree.filter (fun nd => nd.parent_id == P)).map TreeNode.id)
    ∧ (∀ nd ∈ tree, nd.id ∈ tree_traversal tree)
    ∧ (∀ nd ∈ tree, ∀ p, nd.parent_id = some p →
        p ∈ tree_traversal tree ∧
          firstIdx p (tree_traversal tree) < firstIdx nd.id (tree_traversal tree))
    ∧ (∀ i j (hi : i < tree.length) (hj : j < tree.length), i < j →
        (tree.get ⟨i, hi⟩).parent_id = (tree.get ⟨j, hj⟩).parent_id →
        firstIdx (tree.get ⟨i, hi⟩).id (tree_traversal tree) <
          firstIdx (tree.get ⟨j, hj⟩).id (tree_traversal tree)) := by
  refine ⟨fun P => childrenGet_buildChildren tree P,
    mem_tree_traversal tree dp Hroot Hpar, ?_, ?_⟩
  · intro nd hmem p hp
    have hpre := pre_parent_traversal tree hnd hmem hp
    exact hpre.firstIdx_lt (mem_tree_traversal tree dp Hroot Hpar nd hmem)
  · intro i j hi hj hij hpeq
    set x := tree.get ⟨i, hi⟩ with hxdef
    set y := tree.get ⟨j, hj⟩ with hydef
    have hx : x ∈ tree := List.get_mem tree i hi
    have hy : y ∈ tree := List.get_mem tree j hj
    have hne : x.id ≠ y.id := get_id_ne tree hnd hi hj (by omega)
    obtain ⟨t1, t2, hdec, hymem⟩ := exists_split_of_lt tree i j hi hj hij
    obtain ⟨cs1, cs2, hsplit, hy2⟩ := sibling_split tree hdec hymem hpeq
    have hdpeq : dp x.id = dp y.id := by
      cases hpx : x.parent_id with
      | none =>
        have hpy : y.parent_id = none := by
          rw [← hpeq]
          exact hpx
        rw [Hroot x hx hpx, Hroot y hy hpy]
      | some pp =>
        have hpy : y.parent_id = some pp := by
          rw [← hpeq]
          exact hpx
        have h1 := (Hpar x hx pp hpx).2
        have h2 := (Hpar y hy pp hpy).2
        omega
    have hpre := pre_sibling_traversal tree dp hnd Hpar hx hy hne hpeq hsplit hy2 hdpeq
    exact (hpre.firstIdx_lt (mem_tree_traversal tree dp Hroot Hpar y hy)).2

/-- Witness for C3: a four-node forest (root r with children a and b in
that input order, and c a child of a) with its depth function; the theorem
yields membership of the traversal, the parent strictly before its child,
and the earlier sibling strictly before the later one. -/
theorem c3_tree_reconstruction_preorder_witness :
    "c" ∈ tree_traversal
        [⟨"r", none⟩, ⟨"a", some "r"⟩, ⟨"b", some "r"⟩, ⟨"c", some "a"⟩] ∧
    firstIdx "r" (tree_traversal
        [⟨"r", none⟩, ⟨"a", some "r"⟩, ⟨"b", some "r"⟩, ⟨"c", some "a"⟩]) <
      firstIdx "a" (tree_traversal
        [⟨"r", none⟩, ⟨"a", some "r"⟩, ⟨"b", some "r"⟩, ⟨"c", some "a"⟩]) ∧
    firstIdx "a" (tree_traversal
        [⟨"r", none⟩, ⟨"a", some "r"⟩, ⟨"b", some "r"⟩, ⟨"c", some "a"⟩]) <
      firstIdx "b" (tree_traversal
        [⟨"r", none⟩, ⟨"a", some "r"⟩, ⟨"b", some "r"⟩, ⟨"c", some "a"⟩]) := by
  have h := c3_tree_reconstruction_preorder
    [⟨"r", none⟩, ⟨"a", some "r"⟩, ⟨"b", some "r"⟩, ⟨"c", some "a"⟩]
    (fun s => if s = "r" then 0 else if s = "c" then 2 else 1)
    (by decide) (by decide) (by decide)
  refine ⟨h.2.1 ⟨"c", some "a"⟩ (by decide), ?_, ?_⟩
  · exact (h.2.2.1 ⟨"a", some "r"⟩ (by decide) "r" rfl).2
  · exact h.2.2.2 1 2 (by decide) (by decide) (by decide) rfl

/-- C4: a flat list containing a node whose parent reference does not
resolve to any id in the list surfaces that node as unreachable: the node
is present in the list's id set, yet it never appears in the traversal —
no traversal root claims it, and it is not woven into any root's children,
so the corruption is detectable by comparing the list against the
traversal. -/
theorem c4_dangling_parent_unreachable (tree : List TreeNode) (nd : TreeNode)
    (p : String) (hnd : (tree.map TreeNode.id).Nodup) (hmem : nd ∈ tree)
    (hpar : nd.parent_id = some p) (habs : p ∉ tree.map TreeNode.id) :
    nd.id ∈ tree.map TreeNode.id ∧ nd.id ∉ tree_traversal tree := by
  refine ⟨List.mem_map_of_mem _ hmem, ?_⟩
  intro hin
  rcases mem_tree_traversal_origin tree nd.id hin with h | ⟨q, hq, h⟩
  · obtain ⟨m, hm, hid, hpid⟩ := (mem_childrenGet tree none nd.id).mp h
    have hEq : m = nd := node_eq_of_id_eq tree hnd m hm nd hmem hid
    rw [hEq, hpar] at hpid
    cases hpid
  · obtain ⟨m, hm, hid, hpid⟩ := (mem_childrenGet tree (some q) nd.id).mp h
    have hEq : m = nd := node_eq_of_id_eq tree hnd m hm nd hmem hid
    rw [hEq, hpar] at hpid
    have hqp : p = q := Option.some.inj hpid
    rw [← hqp] at hq
    exact habs (tree_traversal_subset_ids tree p hq)

/-- Witness for C4: a two-node list where node d references the absent id
ghost; d is in the list's ids but never appears in the traversal. -/
theorem c4_dangling_parent_unreachable_witness :
    "d" ∈ ([⟨"r", none⟩, ⟨"d", some "ghost"⟩] : List TreeNode).map TreeNode.id ∧
    "d" ∉ tree_traversal [⟨"r", none⟩, ⟨"d", some "ghost"⟩] :=
  c4_dangling_parent_unreachable [⟨"r", none⟩, ⟨"d", some "ghost"⟩]
    ⟨"d", some "ghost"⟩ "ghost" (by decide) (by decide) rfl (by decide)

/-- C6: when the initial response status of a streaming request is at
least 400, the streaming executor (in both variants) raises exactly the
typed error the buffered path raises for that status and body, and it
emits no events at all — the result is an error, never an event list, so
the error body is never line-decoded. -/
theorem c6_stream_error_matches_buffered (base : String) (r : HttpResponse)
    (h : 400 ≤ r.status_code) :
    ∃ err, handle_response r = .error err
      ∧ stream_request base (.response r) = .error err
      ∧ request_exec base (.response r) = .error err
      ∧ stream_request_async base (.response r) = .error err
      ∧ request_exec_async base (.response r) = .error err
      ∧ ∀ evs, stream_request base (.response r) ≠ .ok evs := by
  obtain ⟨err, herr⟩ := handle_response_error_of_ge r h
  have herr' : handle_response_async r = .error err := by
    rw [handle_response_async_eq]
    exact herr
  have hstream : stream_request base (.response r) = .error err := by
    simp [stream_request, h, herr]
  refine ⟨err, herr, hstream, ?_, ?_, ?_, ?_⟩
  · simp [request_exec, herr]
  · simp [stream_request_async, h, herr']
  · simp [request_exec_async, herr']
  · intro evs heq
    rw [hstream] at heq
    cases heq

/-- Witness for C6: a 500 response with a non-streamed error body. -/
theorem c6_stream_error_matches_buffered_witness :
    ∃ err, handle_response ⟨500, "oops"⟩ = .error err
      ∧ stream_request "http://localhost:8080" (.response ⟨500, "oops"⟩) = .error err
      ∧ request_exec "http://localhost:8080" (.response ⟨500, "oops"⟩) = .error err
      ∧ stream_request_async "http://localhost:8080" (.response ⟨500, "oops"⟩) = .error err
      ∧ request_exec_async "http://localhost:8080" (.response ⟨500, "oops"⟩) = .error err
      ∧ ∀ evs, stream_request "http://localhost:8080" (.response ⟨500, "oops"⟩) ≠ .ok evs :=
  c6_stream_error_matches_buffered "http://localhost:8080" ⟨500, "oops"⟩ (by decide)

/-- C7: the blocking and non-blocking variants agree on the shared logic:
the two classifiers return the same result (same error kind, message and
status code, or the same parsed body) on every response, and the two SSE
decoders produce the same event sequence on every line sequence. -/
theorem c7_sync_async_equivalence :
    (∀ r : HttpResponse, handle_response_async r = handle_response r)
    ∧ ∀ (jl : String → Option Json) (lines : List String),
        parse_sse_stream_async jl lines = parse_sse_stream jl lines := by
  refine ⟨handle_response_async_eq, fun jl lines => ?_⟩
  rw [parse_sse_stream, parse_sse_stream_async]
  exact sse_from_eq jl lines none []

/-- C10: a connection failure surfaces, in both the buffered and the
streaming path of both variants, as the dedicated ConnectionError wrapping
the original cause; that kind is never a member of the APIError family and
its class is outside the APIError hierarchy. -/
theorem c10_connection_failure_distinct (base e : String) :
    request_exec base (.connectError e) = .error (wrapConnectError base e)
    ∧ stream_request base (.connectError e) = .error (wrapConnectError base e)
    ∧ request_exec_async base (.connectError e) = .error (wrapConnectError base e)
    ∧ stream_request_async base (.connectError e) = .error (wrapConnectError base e)
    ∧ wrapConnectError base e =
        .connectionError ("Failed to connect to " ++ base ++ ": " ++ e) e
    ∧ (wrapConnectError base e).cls = some .connectionError
    ∧ ExcClass.connectionError.isSubclassOf .apiError = false
    ∧ ∀ k d, wrapConnectError base e ≠ .apiError k d := by
  refine ⟨rfl, rfl, rfl, rfl, rfl, rfl, by decide, ?_⟩
  intro k d h
  simp [wrapConnectError] at h

end LangDAG
